import Mathlib

/-!
Verification development for the chess move-legality engine and the
selection/turn state machine of `bevy_chess` (`src/pieces.rs`, `src/board.rs`).

Coordinates are Rust `u8` values; they are modelled as `Nat` together with the
explicit wrapping casts `toI8` (Rust `as i8`) and `wrapU8` (Rust `as u8`).
Signed 8-bit arithmetic is modelled exactly over `Int`; a separate checked
variant (`is_move_valid_chk`) guards every 8-bit operation with its Rust
range, so that in-range execution of the exact model can be certified.
-/

namespace BevyChess

/-- Color of a chess piece (`PieceColor` in `src/pieces.rs`). -/
inductive PieceColor where
  | White
  | Black
deriving DecidableEq, Repr

/-- Type of a chess piece (`PieceType` in `src/pieces.rs`). -/
inductive PieceType where
  | King
  | Queen
  | Bishop
  | Knight
  | Rook
  | Pawn
deriving DecidableEq, Repr

/-- A chess piece (`Piece` in `src/pieces.rs`): color, type and board position. -/
structure Piece where
  color : PieceColor
  piece_type : PieceType
  x : Nat
  y : Nat
deriving DecidableEq, Repr

/-- Rust `u8 as i8`: wrap a byte value into the signed range `[-128, 127]`. -/
def toI8 (n : Nat) : Int :=
  if n % 256 < 128 then ((n % 256 : Nat) : Int) else ((n % 256 : Nat) : Int) - 256

/-- Rust `i8 as u8`: wrap a signed value into the byte range `[0, 255]`. -/
def wrapU8 (z : Int) : Nat :=
  (z % 256).toNat

/-- Manhatan distance (`struct Manhatan(i8, i8)` in `src/pieces.rs`). -/
structure Manhatan where
  fst : Int
  snd : Int
deriving DecidableEq, Repr

/-- `Manhatan::from`: componentwise difference of two positions (`as i8` casts). -/
def Manhatan.fromPos (p q : Nat × Nat) : Manhatan :=
  Manhatan.mk (toI8 p.1 - toI8 q.1) (toI8 p.2 - toI8 q.2)

/-- `Manhatan::abs`: componentwise absolute value. -/
def Manhatan.abs (self : Manhatan) : Manhatan :=
  Manhatan.mk (self.fst.natAbs : Int) (self.snd.natAbs : Int)

/-- `Manhatan::max`: max of the two components. -/
def Manhatan.max (self : Manhatan) : Int :=
  Max.max self.fst self.snd

/-- `Manhatan::min`: min of the two components. -/
def Manhatan.min (self : Manhatan) : Int :=
  Min.min self.fst self.snd

/-- `Manhatan::straight`: horizontal or vertical (one component of `abs` is zero). -/
def Manhatan.straight (self : Manhatan) : Bool :=
  decide (self.abs.min = 0)

/-- `Manhatan::dignonal`: diagonal (the components of `abs` agree). -/
def Manhatan.dignonal (self : Manhatan) : Bool :=
  decide (self.abs.fst = self.abs.snd)

/-- `color_of_square` from `src/pieces.rs`: color of the first piece in the
list sitting on the given position, if any. -/
def color_of_square (position : Nat × Nat) (pieces : List Piece) : Option PieceColor :=
  match pieces with
  | [] => none
  | piece :: rest =>
    if piece.x = position.1 ∧ piece.y = position.2 then some piece.color
    else color_of_square position rest

/-- The same-column early-return loop of `is_path_empty`: some piece sits on
column `x1` strictly between `y1` and `y2`. -/
def colBlockedB (p1 p2 : Nat × Nat) (pieces : List Piece) : Bool :=
  decide (p1.1 = p2.1) && pieces.any (fun piece =>
    decide (piece.x = p1.1) &&
      ((decide (p1.2 < piece.y) && decide (piece.y < p2.2)) ||
       (decide (p2.2 < piece.y) && decide (piece.y < p1.2))))

/-- The same-row early-return loop of `is_path_empty`: some piece sits on
row `y1` strictly between `x1` and `x2`. -/
def rowBlockedB (p1 p2 : Nat × Nat) (pieces : List Piece) : Bool :=
  decide (p1.2 = p2.2) && pieces.any (fun piece =>
    decide (piece.y = p1.2) &&
      ((decide (p1.1 < piece.x) && decide (piece.x < p2.1)) ||
       (decide (p2.1 < piece.x) && decide (piece.x < p1.1))))

/-- One square inspected by the diagonal walk of `is_path_empty`, for loop
counter `i = k + 1`: the square `(x1 + signum(xdiff) * i, y1 + signum(ydiff) * i)`
after the wrapping `as u8` casts, tested for occupancy.  Note the source
steps by the sign of the *source minus target* difference. -/
def diagOcc (pieces : List Piece) (x1 y1 : Nat) (xd yd : Int) (k : Nat) : Bool :=
  (color_of_square
    (wrapU8 (toI8 x1 + Int.sign xd * ((k : Int) + 1)),
     wrapU8 (toI8 y1 + Int.sign yd * ((k : Int) + 1))) pieces).isSome

/-- `is_path_empty` from `src/pieces.rs`: the two straight-line loops with
early `return false`, then the diagonal walk `for i in 1..xdiff.abs()`. -/
def is_path_empty (p1 p2 : Nat × Nat) (pieces : List Piece) : Bool :=
  if colBlockedB p1 p2 pieces then false
  else if rowBlockedB p1 p2 pieces then false
  else
    let xdiff : Int := toI8 p1.1 - toI8 p2.1
    let ydiff : Int := toI8 p1.2 - toI8 p2.2
    if xdiff.natAbs = ydiff.natAbs then
      !((List.range (xdiff.natAbs - 1)).any (diagOcc pieces p1.1 p1.2 xdiff ydiff))
    else true

/-- `Piece::is_move_valid` from `src/pieces.rs`. -/
def Piece.is_move_valid (self : Piece) (new_position : Nat × Nat)
    (pieces : List Piece) : Bool :=
  -- Check not the same color (also guards moving to the current position).
  if some self.color = color_of_square new_position pieces then false
  else
    let dist := Manhatan.fromPos (self.x, self.y) new_position
    match self.piece_type with
    | PieceType.King =>
        decide (dist.abs.max = 1)
    | PieceType.Queen =>
        is_path_empty (self.x, self.y) new_position pieces &&
          (dist.dignonal || dist.straight)
    | PieceType.Bishop =>
        is_path_empty (self.x, self.y) new_position pieces && dist.dignonal
    | PieceType.Knight =>
        (decide (dist.abs = Manhatan.mk 2 1) || decide (dist.abs = Manhatan.mk 1 2))
    | PieceType.Rook =>
        is_path_empty (self.x, self.y) new_position pieces && dist.straight
    | PieceType.Pawn =>
        let dist :=
          if self.color = PieceColor.White then
            Manhatan.fromPos new_position (self.x, self.y)
          else dist
        let square_color := color_of_square new_position pieces
        -- the three sequential `if … { return true }` blocks of the source
        (decide (dist = Manhatan.mk 1 0) && square_color.isNone) ||
        (decide ((self.color = PieceColor.White ∧ self.x = 1) ∨
                 (self.color = PieceColor.Black ∧ self.x = 6)) &&
         decide (dist = Manhatan.mk 2 0) &&
         is_path_empty (self.x, self.y) new_position pieces &&
         square_color.isNone) ||
        (decide (dist.fst = 1) && decide (dist.snd.natAbs = 1) && square_color.isSome)

/-! ## Range-checked variant of the engine

`is_move_valid_chk` recomputes `is_move_valid` while guarding every Rust
signed 8-bit operation with its range (`i8` arithmetic overflow and
`i8::abs(-128)` panic in debug builds), mirroring the evaluation order and
the short-circuiting of the source; a `none` result marks an execution that
leaves the checked range.  The `as u8` casts of the diagonal walk are taken
as a parameter: `strictCastU8` additionally demands the cast input to be a
representable byte value, while `wrapCastU8` performs Rust's actual
(wrapping, never-failing) cast. -/

/-- Guard an `i8` intermediate value: fail outside `[-128, 127]`. -/
def i8chk (z : Int) : Option Int :=
  if -128 ≤ z ∧ z ≤ 127 then some z else none

/-- Guard `i8::abs`: panics exactly on `-128`. -/
def absChkI (z : Int) : Option Int :=
  if z = -128 then none else some (z.natAbs : Int)

/-- `i8 as u8` under the strict reading: the input must already be a byte value. -/
def strictCastU8 (z : Int) : Option Nat :=
  if 0 ≤ z ∧ z ≤ 255 then some z.toNat else none

/-- `i8 as u8` as Rust performs it: wrapping, never failing. -/
def wrapCastU8 (z : Int) : Option Nat :=
  some (wrapU8 z)

/-- Checked `Manhatan::from`. -/
def fromPosChk (p q : Nat × Nat) : Option Manhatan := do
  let a ← i8chk (toI8 p.1 - toI8 q.1)
  let b ← i8chk (toI8 p.2 - toI8 q.2)
  pure (Manhatan.mk a b)

/-- Checked `Manhatan::abs`. -/
def Manhatan.absChk (self : Manhatan) : Option Manhatan := do
  let a ← absChkI self.fst
  let b ← absChkI self.snd
  pure (Manhatan.mk a b)

/-- Checked `Manhatan::straight`. -/
def Manhatan.straightChk (self : Manhatan) : Option Bool :=
  self.absChk.map (fun a => decide (a.min = 0))

/-- Checked `Manhatan::dignonal`. -/
def Manhatan.dignonalChk (self : Manhatan) : Option Bool :=
  self.absChk.map (fun a => decide (a.fst = a.snd))

/-- One iteration of the checked diagonal walk of `is_path_empty`: computes
`signum * i`, the two coordinate sums and their `as u8` casts in source
order; once the walk has found an occupied square (accumulator `false`, the
source's `return false`) no further arithmetic is performed. -/
def diagStepChk (cast8 : Int → Option Nat) (pieces : List Piece)
    (x1 y1 : Nat) (xd yd : Int) (acc : Bool) (k : Nat) : Option Bool :=
  if acc = false then pure false
  else do
    let i : Int := (k : Int) + 1
    let mx ← i8chk (Int.sign xd * i)
    let px ← i8chk (toI8 x1 + mx)
    let cx ← cast8 px
    let my ← i8chk (Int.sign yd * i)
    let py ← i8chk (toI8 y1 + my)
    let cy ← cast8 py
    pure (!(color_of_square (cx, cy) pieces).isSome)

/-- Checked `is_path_empty`. -/
def is_path_empty_chk (cast8 : Int → Option Nat) (p1 p2 : Nat × Nat)
    (pieces : List Piece) : Option Bool :=
  if colBlockedB p1 p2 pieces then some false
  else if rowBlockedB p1 p2 pieces then some false
  else do
    let xdiff ← i8chk (toI8 p1.1 - toI8 p2.1)
    let ydiff ← i8chk (toI8 p1.2 - toI8 p2.2)
    let xa ← absChkI xdiff
    let ya ← absChkI ydiff
    if xa = ya then
      (List.range (xa.toNat - 1)).foldlM
        (diagStepChk cast8 pieces p1.1 p1.2 xdiff ydiff) true
    else pure true

/-- Checked third pawn clause (`dist.0 == 1 && dist.1.abs() == 1`, then the
occupancy test); `dist.1.abs()` is evaluated only when `dist.0 == 1`. -/
def pawnDiagChk (dist : Manhatan) (square_color : Option PieceColor) : Option Bool :=
  if decide (dist.fst = 1) then do
    let a ← absChkI dist.snd
    pure (decide (a = 1) && square_color.isSome)
  else some false

/-- Short-circuiting `&&` over checked booleans (Rust `&&`). -/
def andChk (a : Option Bool) (b : Unit → Option Bool) : Option Bool :=
  match a with
  | none => none
  | some false => some false
  | some true => b ()

/-- Short-circuiting `||` over checked booleans (Rust `||`). -/
def orChk (a : Option Bool) (b : Unit → Option Bool) : Option Bool :=
  match a with
  | none => none
  | some true => some true
  | some false => b ()

/-- Checked `Piece::is_move_valid`. -/
def Piece.is_move_valid_chk (cast8 : Int → Option Nat) (self : Piece)
    (new_position : Nat × Nat) (pieces : List Piece) : Option Bool :=
  if some self.color = color_of_square new_position pieces then some false
  else do
    let dist ← fromPosChk (self.x, self.y) new_position
    match self.piece_type with
    | PieceType.King =>
        dist.absChk.map (fun a => decide (a.max = 1))
    | PieceType.Queen =>
        andChk (is_path_empty_chk cast8 (self.x, self.y) new_position pieces)
          (fun _ => orChk dist.dignonalChk (fun _ => dist.straightChk))
    | PieceType.Bishop =>
        andChk (is_path_empty_chk cast8 (self.x, self.y) new_position pieces)
          (fun _ => dist.dignonalChk)
    | PieceType.Knight =>
        dist.absChk.map (fun a =>
          decide (a = Manhatan.mk 2 1) || decide (a = Manhatan.mk 1 2))
    | PieceType.Rook =>
        andChk (is_path_empty_chk cast8 (self.x, self.y) new_position pieces)
          (fun _ => dist.straightChk)
    | PieceType.Pawn => do
        let dist ←
          if self.color = PieceColor.White then
            fromPosChk new_position (self.x, self.y)
          else pure dist
        let square_color := color_of_square new_position pieces
        if decide (dist = Manhatan.mk 1 0) && square_color.isNone then pure true
        else if decide ((self.color = PieceColor.White ∧ self.x = 1) ∨
                        (self.color = PieceColor.Black ∧ self.x = 6)) &&
                decide (dist = Manhatan.mk 2 0) then do
          let pe ← is_path_empty_chk cast8 (self.x, self.y) new_position pieces
          if pe && square_color.isNone then pure true
          else pawnDiagChk dist square_color
        else pawnDiagChk dist square_color

/-! ## Board state machine (`src/board.rs`)

Bevy entities are modelled as follows: a board square entity is identified
with its coordinate pair, and a piece entity with a `Nat` key; the live piece
collection is an association list of `(entity, piece)` entries whose iteration
order is the ECS query order.  The `is_changed` change-detection flags of the
`SelectedSquare` / `SelectedPiece` resources are explicit boolean inputs of
the per-tick system functions.  `Taken` markers are the `taken` key list. -/

/-- `PlayerTurn::toggle` from `src/board.rs`. -/
def PlayerTurn.toggle (self : PieceColor) : PieceColor :=
  match self with
  | PieceColor.White => PieceColor.Black
  | PieceColor.Black => PieceColor.White

/-- A selection event delivered by `bevy_mod_picking`
(`SelectionEvent` in `select_squares`), with the square entity identified by
its coordinates. -/
inductive SelectionEvent where
  | JustSelected (square : Nat × Nat)
  | JustDeselected (square : Nat × Nat)
deriving DecidableEq, Repr

/-- The mutable state acted on by the `board.rs` systems: live pieces
(entity-keyed), the `SelectedSquare` and `SelectedPiece` resources, the
`PlayerTurn` resource and the set of entities tagged `Taken`. -/
structure BoardState where
  pieces : List (Nat × Piece)
  selectedSquare : Option (Nat × Nat)
  selectedPiece : Option Nat
  turn : PieceColor
  taken : List Nat
deriving DecidableEq, Repr

/-- `select_squares` from `src/board.rs`: fold the tick's selection events
into the `SelectedSquare` resource. -/
def select_squares (s : BoardState) (events : List SelectionEvent) : BoardState :=
  events.foldl (fun st e =>
    match e with
    | SelectionEvent.JustSelected sq => { st with selectedSquare := some sq }
    | SelectionEvent.JustDeselected sq =>
        if some sq = st.selectedSquare then { st with selectedSquare := none }
        else st) s

/-- `select_piece` from `src/board.rs`: when the selected square just changed
and no piece is selected, select the first own-color piece on that square;
when the square selection became empty, clear the piece selection. -/
def select_piece (squareChanged : Bool) (s : BoardState) : BoardState :=
  if squareChanged then
    match s.selectedSquare with
    | some sq =>
        if s.selectedPiece = none then
          match s.pieces.find? (fun ep =>
              decide (ep.2.x = sq.1) && decide (ep.2.y = sq.2) &&
              decide (ep.2.color = s.turn)) with
          | some ep => { s with selectedPiece := some ep.1 }
          | none => s
        else s
    | none => { s with selectedPiece := none }
  else s

/-- `pieces_query.get_mut(entity)`: the piece component of the entry with the
given entity key. -/
def lookupPiece (pieces : List (Nat × Piece)) (e : Nat) : Option Piece :=
  (pieces.find? (fun ep => decide (ep.1 = e))).map Prod.snd

/-- Write back the moved piece component for the given entity key. -/
def setPiece (pieces : List (Nat × Piece)) (e : Nat) (p : Piece) :
    List (Nat × Piece) :=
  pieces.map (fun ep => if ep.1 = e then (e, p) else ep)

/-- `move_piece` from `src/board.rs`: when the selected square just changed,
a square and a previously selected piece are present, and the piece selection
did not change this tick, attempt the move; on a legal move mark the target's
occupant `Taken`, move the piece and toggle the turn; in every case consume
the selection. -/
def move_piece (squareChanged pieceChanged : Bool) (s : BoardState) : BoardState :=
  if !squareChanged then s
  else
    match s.selectedSquare with
    | none => s
    | some sq =>
      if pieceChanged then s
      else
        match s.selectedPiece with
        | none => s
        | some pieceEntity =>
          match lookupPiece s.pieces pieceEntity with
          | none => s
          | some piece =>
            let pieces := s.pieces.map Prod.snd
            let other_entity := (s.pieces.find? (fun ep =>
                decide (ep.2.x = sq.1 ∧ ep.2.y = sq.2))).map Prod.fst
            let s1 :=
              if piece.is_move_valid (sq.1, sq.2) pieces then
                { s with
                  taken :=
                    match other_entity with
                    | some e => s.taken ++ [e]
                    | none => s.taken,
                  pieces := setPiece s.pieces pieceEntity
                    { piece with x := sq.1, y := sq.2 },
                  turn := PlayerTurn.toggle s.turn }
              else s
            { s1 with selectedSquare := none, selectedPiece := none }

/-- The guard of `move_piece`'s mutating branch: a move attempt occurs this
tick and passes `is_move_valid`. -/
def legal_attempt (squareChanged pieceChanged : Bool) (s : BoardState) : Bool :=
  squareChanged && !pieceChanged &&
    (match s.selectedSquare with
     | none => false
     | some sq =>
       match s.selectedPiece with
       | none => false
       | some pieceEntity =>
         match lookupPiece s.pieces pieceEntity with
         | none => false
         | some piece => piece.is_move_valid (sq.1, sq.2) (s.pieces.map Prod.snd))

/-- `remove_taken_pieces` from `src/board.rs`: despawn every piece entity
tagged `Taken`, and send `AppExit` (the returned flag) if one of them is a
King. -/
def remove_taken_pieces (s : BoardState) : BoardState × Bool :=
  let takenEntries := s.pieces.filter (fun ep => decide (ep.1 ∈ s.taken))
  ({ s with
      pieces := s.pieces.filter (fun ep => decide (ep.1 ∉ s.taken)),
      taken := [] },
   takenEntries.any (fun ep => decide (ep.2.piece_type = PieceType.King)))

/-! ## Helper lemmas -/

lemma toI8_of_le {n : Nat} (h : n ≤ 7) : toI8 n = (n : Int) := by
  unfold toI8
  rw [Nat.mod_eq_of_lt (by omega)]
  rw [if_pos (by omega)]

lemma color_of_square_eq_none_iff (pos : Nat × Nat) (pieces : List Piece) :
    color_of_square pos pieces = none ↔
      ∀ p ∈ pieces, ¬(p.x = pos.1 ∧ p.y = pos.2) := by
  induction pieces with
  | nil => simp [color_of_square]
  | cons q rest ih =>
    simp only [color_of_square]
    by_cases hq : q.x = pos.1 ∧ q.y = pos.2
    · rw [if_pos hq]
      constructor
      · intro h; exact absurd h (Option.some_ne_none _)
      · intro h; exact absurd hq (h q (List.mem_cons_self q rest))
    · rw [if_neg hq, ih]
      constructor
      · intro h p hp
        rcases List.mem_cons.mp hp with rfl | hmem
        · exact hq
        · exact h p hmem
      · intro h p hp
        exact h p (List.mem_cons_of_mem q hp)

lemma color_of_square_eq_some {pos : Nat × Nat} {pieces : List Piece}
    {c : PieceColor} (h : color_of_square pos pieces = some c) :
    ∃ p ∈ pieces, p.x = pos.1 ∧ p.y = pos.2 ∧ p.color = c := by
  induction pieces with
  | nil => simp [color_of_square] at h
  | cons q rest ih =>
    by_cases hq : q.x = pos.1 ∧ q.y = pos.2
    · simp [color_of_square, hq] at h
      exact ⟨q, by simp, hq.1, hq.2, h⟩
    · simp [color_of_square, hq] at h
      obtain ⟨p, hp, h1, h2, h3⟩ := ih h
      exact ⟨p, by simp [hp], h1, h2, h3⟩

lemma color_of_square_pairwise {pos : Nat × Nat} {pieces : List Piece}
    (hnd : pieces.Pairwise (fun p q => ¬(p.x = q.x ∧ p.y = q.y)))
    {p : Piece} (hp : p ∈ pieces) (hx : p.x = pos.1) (hy : p.y = pos.2) :
    color_of_square pos pieces = some p.color := by
  induction pieces with
  | nil => simp at hp
  | cons q rest ih =>
    rcases List.mem_cons.mp hp with rfl | hmem
    · simp [color_of_square, hx, hy]
    · have hqp : ¬(q.x = p.x ∧ q.y = p.y) :=
        (List.pairwise_cons.mp hnd).1 p hmem
      have hq : ¬(q.x = pos.1 ∧ q.y = pos.2) := by
        rw [← hx, ← hy]; exact hqp
      simp [color_of_square, hq]
      exact ih (List.pairwise_cons.mp hnd).2 hmem

/-- Bool-level characterization of the same-column early-return loop. -/
lemma colBlockedB_eq_true_iff (p1 p2 : Nat × Nat) (pieces : List Piece) :
    colBlockedB p1 p2 pieces = true ↔
      p1.1 = p2.1 ∧ ∃ p ∈ pieces, p.x = p1.1 ∧
        ((p1.2 < p.y ∧ p.y < p2.2) ∨ (p2.2 < p.y ∧ p.y < p1.2)) := by
  unfold colBlockedB
  simp [List.any_eq_true]

/-- Bool-level characterization of the same-row early-return loop. -/
lemma rowBlockedB_eq_true_iff (p1 p2 : Nat × Nat) (pieces : List Piece) :
    rowBlockedB p1 p2 pieces = true ↔
      p1.2 = p2.2 ∧ ∃ p ∈ pieces, p.y = p1.2 ∧
        ((p1.1 < p.x ∧ p.x < p2.1) ∨ (p2.1 < p.x ∧ p.x < p1.1)) := by
  unfold rowBlockedB
  simp [List.any_eq_true]

/-- A degenerate path (source = target) is always empty. -/
lemma is_path_empty_self (x y : Nat) (pieces : List Piece) :
    is_path_empty (x, y) (x, y) pieces = true := by
  have hcol : colBlockedB (x, y) (x, y) pieces = false := by
    rw [← Bool.not_eq_true, colBlockedB_eq_true_iff]
    rintro ⟨-, p, -, -, h⟩
    omega
  have hrow : rowBlockedB (x, y) (x, y) pieces = false := by
    rw [← Bool.not_eq_true, rowBlockedB_eq_true_iff]
    rintro ⟨-, p, -, -, h⟩
    omega
  unfold is_path_empty
  rw [hcol, hrow]
  simp

/-! ## Claims -/

/-- C1: evaluation of the code at a failing input for the claim
"Rook/Bishop/Queen moves return false whenever a square strictly between
source and target is occupied".  A White bishop at (0,0) moves to (2,2)
while the strictly-between square (1,1) is occupied, yet `is_move_valid`
returns `true`: the diagonal walk of `is_path_empty` steps by
`signum(x1 - x2)` — the sign of source minus target — so it walks *away*
from the target and inspects the wrapped squares (255,255) instead of the
open interval, contradicting the function's own documentation. -/
theorem c1_diagonal_block_ignored :
    color_of_square (1, 1) [Piece.mk PieceColor.Black PieceType.Pawn 1 1] =
      some PieceColor.Black ∧
    (Piece.mk PieceColor.White PieceType.Bishop 0 0).is_move_valid (2, 2)
      [Piece.mk PieceColor.Black PieceType.Pawn 1 1] = true := by
  decide

/-- C2 counterexample: the claim quantifies over *every* piece list, but
`color_of_square` only reports the first piece on the target square.  With
two pieces stacked on (0,1) — an enemy piece listed first and an own-color
piece after it — a White king's move to (0,1) is accepted although some
piece in the list at the target has the moving piece's color. -/
theorem c2_counterexample :
    (∃ p ∈ [Piece.mk PieceColor.Black PieceType.Pawn 0 1,
            Piece.mk PieceColor.White PieceType.Pawn 0 1],
        p.x = 0 ∧ p.y = 1 ∧ p.color = PieceColor.White) ∧
    (Piece.mk PieceColor.White PieceType.King 0 0).is_move_valid (0, 1)
      [Piece.mk PieceColor.Black PieceType.Pawn 0 1,
       Piece.mk PieceColor.White PieceType.Pawn 0 1] = true := by
  decide

/-- C2 (amended): provided no two pieces in the list occupy the same
coordinate, `is_move_valid` returns false whenever some piece in the list at
the target has the mover's color; in particular, when the mover occurs in the
list, moving to its own square is illegal for every piece kind. -/
theorem c2_same_color_target_rejected (self : Piece) (t : Nat × Nat)
    (pieces : List Piece)
    (hnd : pieces.Pairwise (fun p q => ¬(p.x = q.x ∧ p.y = q.y))) :
    ((∃ p ∈ pieces, p.x = t.1 ∧ p.y = t.2 ∧ p.color = self.color) →
        self.is_move_valid t pieces = false) ∧
    (self ∈ pieces → self.is_move_valid (self.x, self.y) pieces = false) := by
  constructor
  · rintro ⟨p, hp, hx, hy, hc⟩
    have hcs : color_of_square t pieces = some p.color :=
      color_of_square_pairwise hnd hp hx hy
    unfold Piece.is_move_valid
    rw [if_pos (by rw [hcs, hc])]
  · intro hself
    have hcs : color_of_square (self.x, self.y) pieces = some self.color :=
      color_of_square_pairwise hnd hself rfl rfl
    unfold Piece.is_move_valid
    rw [if_pos (by rw [hcs])]

/-- C2 witness: a White queen occupying (0,0) may not "move" to (0,0). -/
theorem c2_witness :
    (Piece.mk PieceColor.White PieceType.Queen 0 0).is_move_valid (0, 0)
      [Piece.mk PieceColor.White PieceType.Queen 0 0] = false :=
  (c2_same_color_target_rejected (Piece.mk PieceColor.White PieceType.Queen 0 0)
      (0, 0) _ (by simp)).2 (by simp)

/-- C10: the implicit rejection of zero-length moves relies on the mover
occupying its own square in the snapshot: for a Queen, Rook or Bishop and a
piece list with no piece on the mover's square, moving to the current square
is accepted — the zero delta is both straight and diagonal and the empty
path interval is vacuously clear. -/
theorem c10_slider_zero_move_accepted (c : PieceColor) (k : PieceType)
    (x y : Nat) (pieces : List Piece)
    (hk : k = PieceType.Queen ∨ k = PieceType.Rook ∨ k = PieceType.Bishop)
    (hempty : ∀ p ∈ pieces, ¬(p.x = x ∧ p.y = y)) :
    (Piece.mk c k x y).is_move_valid (x, y) pieces = true := by
  have hnone : color_of_square (x, y) pieces = none :=
    (color_of_square_eq_none_iff _ _).mpr hempty
  unfold Piece.is_move_valid
  rw [if_neg (by rw [hnone]; exact Option.some_ne_none _)]
  rcases hk with rfl | rfl | rfl <;>
    simp [Manhatan.fromPos, sub_self, is_path_empty_self, Manhatan.dignonal,
      Manhatan.straight, Manhatan.abs, Manhatan.min]

/-- C10 witness: a lone White queen at (3,4) may "move" to (3,4). -/
theorem c10_witness :
    (Piece.mk PieceColor.White PieceType.Queen 3 4).is_move_valid (3, 4) [] = true :=
  c10_slider_zero_move_accepted PieceColor.White PieceType.Queen 3 4 []
    (Or.inl rfl) (by simp)

lemma color_of_square_ne_of_no_same_color {t : Nat × Nat} {pieces : List Piece}
    {c : PieceColor} (hc : ∀ p ∈ pieces, p.x = t.1 ∧ p.y = t.2 → p.color ≠ c) :
    ¬(some c = color_of_square t pieces) := by
  intro h
  obtain ⟨p, hp, hx, hy, hcol⟩ := color_of_square_eq_some h.symm
  exact hc p hp ⟨hx, hy⟩ (by rw [hcol])

/-- C4: a knight move to a target holding no same-color piece is legal
exactly when the absolute coordinate deltas are (1,2) or (2,1), and the
result does not depend on the occupancy of any square other than the target
(two lists subject only to the target condition give the same verdict). -/
theorem c4_knight_characterization (self : Piece) (t : Nat × Nat)
    (pieces pieces2 : List Piece)
    (hk : self.piece_type = PieceType.Knight)
    (h1 : self.x ≤ 7) (h2 : self.y ≤ 7) (h3 : t.1 ≤ 7) (h4 : t.2 ≤ 7)
    (hc : ∀ p ∈ pieces, p.x = t.1 ∧ p.y = t.2 → p.color ≠ self.color)
    (hc2 : ∀ p ∈ pieces2, p.x = t.1 ∧ p.y = t.2 → p.color ≠ self.color) :
    (self.is_move_valid t pieces = true ↔
      ((((self.x : Int) - (t.1 : Int)).natAbs = 1 ∧
        ((self.y : Int) - (t.2 : Int)).natAbs = 2) ∨
       (((self.x : Int) - (t.1 : Int)).natAbs = 2 ∧
        ((self.y : Int) - (t.2 : Int)).natAbs = 1))) ∧
    self.is_move_valid t pieces = self.is_move_valid t pieces2 := by
  obtain ⟨c, k, x, y⟩ := self
  dsimp only at hk h1 h2 hc hc2 ⊢
  subst hk
  unfold Piece.is_move_valid
  rw [if_neg (color_of_square_ne_of_no_same_color hc),
      if_neg (color_of_square_ne_of_no_same_color hc2)]
  refine ⟨?_, rfl⟩
  simp only [Manhatan.fromPos, Manhatan.abs, toI8_of_le h1, toI8_of_le h2,
    toI8_of_le h3, toI8_of_le h4, Bool.or_eq_true, decide_eq_true_eq,
    Manhatan.mk.injEq]
  omega

/-- C4 witness: a White knight at (4,4) may jump to (6,5) over any occupancy
elsewhere (here: onto a Black pawn). -/
theorem c4_witness :
    (Piece.mk PieceColor.White PieceType.Knight 4 4).is_move_valid (6, 5)
      [Piece.mk PieceColor.Black PieceType.Pawn 6 5] = true :=
  ((c4_knight_characterization (Piece.mk PieceColor.White PieceType.Knight 4 4)
      (6, 5) [Piece.mk PieceColor.Black PieceType.Pawn 6 5] [] rfl
      (by decide) (by decide) (by decide) (by decide)
      (by decide) (by simp)).1).mpr (by decide)

/-- The two-square straight path on a row: `is_path_empty` reduces to the
same-row loop (the diagonal guard fails since `|xdiff| = 2 ≠ 0 = |ydiff|`). -/
lemma path_two_step_char (x1 x2 y : Nat) (pieces : List Piece)
    (hx1 : x1 ≤ 7) (hx2 : x2 ≤ 7) (hd : ((x1 : Int) - x2).natAbs = 2) :
    is_path_empty (x1, y) (x2, y) pieces = true ↔
      ∀ p ∈ pieces, ¬(p.y = y ∧ ((x1 < p.x ∧ p.x < x2) ∨ (x2 < p.x ∧ p.x < x1))) := by
  have hne : x1 ≠ x2 := by omega
  have hcol : colBlockedB (x1, y) (x2, y) pieces = false := by
    rw [← Bool.not_eq_true, colBlockedB_eq_true_iff]
    rintro ⟨h, -⟩
    exact hne h
  unfold is_path_empty
  rw [hcol]
  cases hb : rowBlockedB (x1, y) (x2, y) pieces with
  | true =>
    obtain ⟨-, p, hp, hpy, hrange⟩ := (rowBlockedB_eq_true_iff _ _ _).mp hb
    simp only [Bool.false_eq_true, if_false, if_true]
    constructor
    · intro h; exact absurd h (by simp)
    · intro h; exact absurd ⟨hpy, hrange⟩ (h p hp)
  | false =>
    simp only [Bool.false_eq_true, if_false, toI8_of_le hx1, toI8_of_le hx2,
      sub_self, Int.natAbs_zero, hd]
    rw [if_neg (by omega)]
    simp only [true_iff]
    intro p hp hcontra
    have : rowBlockedB (x1, y) (x2, y) pieces = true := by
      rw [rowBlockedB_eq_true_iff]
      exact ⟨rfl, p, hp, hcontra.1, hcontra.2⟩
    rw [hb] at this
    cases this


/-- The White double-step move computes to "path empty and target empty". -/
lemma pawn_white_double_eq (y : Nat) (pieces : List Piece) :
    (Piece.mk PieceColor.White PieceType.Pawn 1 y).is_move_valid (3, y) pieces =
      (is_path_empty (1, y) (3, y) pieces &&
        (color_of_square (3, y) pieces).isNone) := by
  unfold Piece.is_move_valid
  cases hsc : color_of_square (3, y) pieces with
  | some c =>
    cases c with
    | White =>
      rw [if_pos rfl]
      simp
    | Black =>
      rw [if_neg (by simp)]
      simp [Manhatan.fromPos, toI8, sub_self]
  | none =>
    rw [if_neg (by simp)]
    simp [Manhatan.fromPos, toI8, sub_self]

/-- The Black double-step move computes to "path empty and target empty". -/
lemma pawn_black_double_eq (y : Nat) (pieces : List Piece) :
    (Piece.mk PieceColor.Black PieceType.Pawn 6 y).is_move_valid (4, y) pieces =
      (is_path_empty (6, y) (4, y) pieces &&
        (color_of_square (4, y) pieces).isNone) := by
  unfold Piece.is_move_valid
  cases hsc : color_of_square (4, y) pieces with
  | some c =>
    cases c with
    | Black =>
      rw [if_pos rfl]
      simp
    | White =>
      rw [if_neg (by simp)]
      simp [Manhatan.fromPos, toI8, sub_self]
  | none =>
    rw [if_neg (by simp)]
    simp [Manhatan.fromPos, toI8, sub_self]

/-- C3: a White pawn at rank 1 may advance two squares on its file exactly
when both the intervening square (2,y) and the target (3,y) are unoccupied;
symmetrically a Black pawn at rank 6 may reach (4,y) exactly when (5,y) and
(4,y) are unoccupied.  In particular an occupied intervening square makes
the move illegal regardless of the target's occupancy. -/
theorem c3_pawn_double_step (y : Nat) (pieces : List Piece) :
    ((Piece.mk PieceColor.White PieceType.Pawn 1 y).is_move_valid (3, y) pieces = true ↔
      ((∀ p ∈ pieces, ¬(p.x = 2 ∧ p.y = y)) ∧
       (∀ p ∈ pieces, ¬(p.x = 3 ∧ p.y = y)))) ∧
    ((Piece.mk PieceColor.Black PieceType.Pawn 6 y).is_move_valid (4, y) pieces = true ↔
      ((∀ p ∈ pieces, ¬(p.x = 5 ∧ p.y = y)) ∧
       (∀ p ∈ pieces, ¬(p.x = 4 ∧ p.y = y)))) := by
  constructor
  · rw [pawn_white_double_eq]
    rw [Bool.and_eq_true, Option.isNone_iff_eq_none, color_of_square_eq_none_iff,
      path_two_step_char 1 3 y pieces (by omega) (by omega) (by decide)]
    constructor
    · rintro ⟨h1, h2⟩
      refine ⟨fun p hp hc => h1 p hp ⟨hc.2, Or.inl (by omega)⟩, h2⟩
    · rintro ⟨h1, h2⟩
      refine ⟨fun p hp hc => ?_, h2⟩
      rcases hc.2 with hr | hr
      · exact h1 p hp ⟨by omega, hc.1⟩
      · omega
  · rw [pawn_black_double_eq]
    rw [Bool.and_eq_true, Option.isNone_iff_eq_none, color_of_square_eq_none_iff,
      path_two_step_char 6 4 y pieces (by omega) (by omega) (by decide)]
    constructor
    · rintro ⟨h1, h2⟩
      refine ⟨fun p hp hc => h1 p hp ⟨hc.2, Or.inr (by omega)⟩, h2⟩
    · rintro ⟨h1, h2⟩
      refine ⟨fun p hp hc => ?_, h2⟩
      rcases hc.2 with hr | hr
      · omega
      · exact h1 p hp ⟨by omega, hc.1⟩

lemma select_squares_turn (events : List SelectionEvent) (s : BoardState) :
    (select_squares s events).turn = s.turn := by
  induction events generalizing s with
  | nil => rfl
  | cons e rest ih =>
    have hstep :
        select_squares s (e :: rest) =
          select_squares
            (match e with
             | SelectionEvent.JustSelected sq => { s with selectedSquare := some sq }
             | SelectionEvent.JustDeselected sq =>
                 if some sq = s.selectedSquare then { s with selectedSquare := none }
                 else s) rest := rfl
    rw [hstep, ih]
    cases e with
    | JustSelected sq => rfl
    | JustDeselected sq =>
      dsimp only
      by_cases hc : some sq = s.selectedSquare
      · rw [if_pos hc]
      · rw [if_neg hc]

lemma select_piece_turn (b : Bool) (s : BoardState) :
    (select_piece b s).turn = s.turn := by
  unfold select_piece
  split <;> try rfl
  split <;> try rfl
  split <;> try rfl
  split <;> rfl

lemma move_piece_turn (sqc pc : Bool) (s : BoardState) :
    (move_piece sqc pc s).turn =
      (if legal_attempt sqc pc s = true then PlayerTurn.toggle s.turn
       else s.turn) := by
  unfold move_piece legal_attempt
  cases sqc with
  | false => simp
  | true =>
    cases hss : s.selectedSquare with
    | none => simp [hss]
    | some sq =>
      cases pc with
      | true => simp [hss]
      | false =>
        cases hsp : s.selectedPiece with
        | none => simp [hss, hsp]
        | some i =>
          cases hlp : lookupPiece s.pieces i with
          | none => simp [hss, hsp, hlp]
          | some p =>
            cases hv : p.is_move_valid (sq.1, sq.2) (s.pieces.map Prod.snd) with
            | false => simp [hss, hsp, hlp, hv]
            | true => simp [hss, hsp, hlp, hv]

/-- C5: the turn toggles exactly once per update step when a move attempt
passes the legality check (`legal_attempt`), and is untouched in every other
case — by `select_squares` and `select_piece` (selection and deselection
events), by `move_piece` on an illegal or absent attempt, and by the capture
sweep; `PlayerTurn.toggle` never fixes a color, so a toggle is a real change. -/
theorem c5_turn_toggles_iff_legal (s : BoardState) (events : List SelectionEvent)
    (squareChanged pieceChanged : Bool) :
    (select_squares s events).turn = s.turn ∧
    (select_piece squareChanged s).turn = s.turn ∧
    (remove_taken_pieces s).1.turn = s.turn ∧
    ((move_piece squareChanged pieceChanged s).turn =
      (if legal_attempt squareChanged pieceChanged s = true
       then PlayerTurn.toggle s.turn else s.turn)) ∧
    (∀ c : PieceColor, PlayerTurn.toggle c ≠ c) := by
  refine ⟨select_squares_turn events s, select_piece_turn squareChanged s, rfl,
    move_piece_turn squareChanged pieceChanged s, ?_⟩
  intro c
  cases c <;> simp [PlayerTurn.toggle]

/-- C6: when a move attempt occurs (square changed, a square and a
previously selected piece present) and the legality check fails, the board
is untouched — pieces, capture marks and turn are unchanged — while both
the selected square and the selected piece are cleared regardless of the
attempt's legality. -/
theorem c6_illegal_attempt_no_mutation (s : BoardState) (sq : Nat × Nat)
    (i : Nat) (p : Piece)
    (hss : s.selectedSquare = some sq) (hsp : s.selectedPiece = some i)
    (hlp : lookupPiece s.pieces i = some p) :
    (p.is_move_valid (sq.1, sq.2) (s.pieces.map Prod.snd) = false →
      ((move_piece true false s).pieces = s.pieces ∧
       (move_piece true false s).taken = s.taken ∧
       (move_piece true false s).turn = s.turn)) ∧
    (move_piece true false s).selectedSquare = none ∧
    (move_piece true false s).selectedPiece = none := by
  constructor
  · intro hv
    unfold move_piece
    simp only [hss, hsp, hlp, hv, Bool.not_true, Bool.false_eq_true, if_false]
    exact ⟨trivial, trivial, trivial⟩
  · unfold move_piece
    simp only [hss, hsp, hlp, Bool.not_true, Bool.false_eq_true, if_false]
    cases hv : p.is_move_valid (sq.1, sq.2) (s.pieces.map Prod.snd) <;>
      simp [hv]

/-- C6 witness: a White rook at (0,0) attempting the non-rook move to (1,1)
leaves pieces, marks and turn unchanged and consumes the selection. -/
theorem c6_witness :
    ((move_piece true false
        (BoardState.mk [(0, Piece.mk PieceColor.White PieceType.Rook 0 0)]
          (some (1, 1)) (some 0) PieceColor.White [])).pieces =
      [(0, Piece.mk PieceColor.White PieceType.Rook 0 0)] ∧
     (move_piece true false
        (BoardState.mk [(0, Piece.mk PieceColor.White PieceType.Rook 0 0)]
          (some (1, 1)) (some 0) PieceColor.White [])).taken = [] ∧
     (move_piece true false
        (BoardState.mk [(0, Piece.mk PieceColor.White PieceType.Rook 0 0)]
          (some (1, 1)) (some 0) PieceColor.White [])).turn = PieceColor.White) ∧
    (move_piece true false
        (BoardState.mk [(0, Piece.mk PieceColor.White PieceType.Rook 0 0)]
          (some (1, 1)) (some 0) PieceColor.White [])).selectedSquare = none ∧
    (move_piece true false
        (BoardState.mk [(0, Piece.mk PieceColor.White PieceType.Rook 0 0)]
          (some (1, 1)) (some 0) PieceColor.White [])).selectedPiece = none := by
  have h := c6_illegal_attempt_no_mutation
    (BoardState.mk [(0, Piece.mk PieceColor.White PieceType.Rook 0 0)]
      (some (1, 1)) (some 0) PieceColor.White [])
    (1, 1) 0 (Piece.mk PieceColor.White PieceType.Rook 0 0) rfl rfl (by decide)
  exact ⟨h.1 (by decide), h.2⟩

/-- C8: processing `SquareCleared` (a `JustDeselected` event) is idempotent:
when nothing is selected, or the cleared square is not the selected one, the
event leaves the state unchanged, and issuing the event twice in a row has
the same effect as issuing it once. -/
theorem c8_deselect_idempotent (s : BoardState) (e : Nat × Nat) :
    ((s.selectedSquare = none ∨ s.selectedSquare ≠ some e) →
      select_squares s [SelectionEvent.JustDeselected e] = s) ∧
    select_squares (select_squares s [SelectionEvent.JustDeselected e])
        [SelectionEvent.JustDeselected e] =
      select_squares s [SelectionEvent.JustDeselected e] := by
  have hbase : ∀ st : BoardState,
      select_squares st [SelectionEvent.JustDeselected e] =
        (if some e = st.selectedSquare then { st with selectedSquare := none }
         else st) := fun st => rfl
  constructor
  · rintro (h | h)
    · rw [hbase, h, if_neg (by simp)]
    · rw [hbase, if_neg (fun hc => h hc.symm)]
  · rw [hbase s]
    by_cases hc : some e = s.selectedSquare
    · rw [if_pos hc, hbase, if_neg (by simp)]
    · rw [if_neg hc, hbase, if_neg hc]

/-- C8 witness: clearing square (0,0) on an empty selection is a no-op. -/
theorem c8_witness :
    select_squares (BoardState.mk [] none none PieceColor.White [])
        [SelectionEvent.JustDeselected (0, 0)] =
      BoardState.mk [] none none PieceColor.White [] :=
  (c8_deselect_idempotent (BoardState.mk [] none none PieceColor.White [])
    (0, 0)).1 (Or.inl rfl)

lemma is_move_valid_true_color_ne {self : Piece} {t : Nat × Nat}
    {pieces : List Piece} (h : self.is_move_valid t pieces = true) :
    ¬(some self.color = color_of_square t pieces) := by
  intro hc
  unfold Piece.is_move_valid at h
  rw [if_pos hc] at h
  simp at h

lemma keys_nodup_snd_eq {l : List (Nat × Piece)}
    (hnd : (l.map Prod.fst).Nodup)
    {i : Nat} {a b : Piece} (ha : (i, a) ∈ l) (hb : (i, b) ∈ l) : a = b := by
  induction l with
  | nil => simp at ha
  | cons ep rest ih =>
    simp only [List.map_cons, List.nodup_cons] at hnd
    rcases List.mem_cons.mp ha with ha1 | ha2
    · rcases List.mem_cons.mp hb with hb1 | hb2
      · simpa using ha1.trans hb1.symm
      · exfalso
        apply hnd.1
        rw [← ha1]
        exact List.mem_map.mpr ⟨(i, b), hb2, rfl⟩
    · rcases List.mem_cons.mp hb with hb1 | hb2
      · exfalso
        apply hnd.1
        rw [← hb1]
        exact List.mem_map.mpr ⟨(i, a), ha2, rfl⟩
      · exact ih hnd.2 ha2 hb2

lemma find?_key_eq {l : List (Nat × Piece)} (hnd : (l.map Prod.fst).Nodup)
    {j : Nat} {q : Piece} (h : (j, q) ∈ l) :
    l.find? (fun ep => decide (ep.1 = j)) = some (j, q) := by
  induction l with
  | nil => simp at h
  | cons ep rest ih =>
    simp only [List.map_cons, List.nodup_cons] at hnd
    rcases List.mem_cons.mp h with h1 | h2
    · rw [← h1]
      rw [List.find?_cons_of_pos _ (by simp)]
    · have hne : ep.1 ≠ j := by
        intro he
        exact hnd.1 (he ▸ List.mem_map.mpr ⟨(j, q), h2, rfl⟩)
      rw [List.find?_cons_of_neg _ (by simpa using hne)]
      exact ih hnd.2 h2

lemma find?_setPiece_ne (l : List (Nat × Piece)) (i j : Nat) (p : Piece)
    (hne : j ≠ i) :
    (setPiece l i p).find? (fun ep => decide (ep.1 = j)) =
      l.find? (fun ep => decide (ep.1 = j)) := by
  induction l with
  | nil => rfl
  | cons ep rest ih =>
    unfold setPiece
    simp only [List.map_cons]
    by_cases hep : ep.1 = i
    · rw [if_pos hep]
      rw [List.find?_cons_of_neg _ (by simpa using fun h => hne h.symm),
          List.find?_cons_of_neg _ (by simp [hep]; omega)]
      exact ih
    · rw [if_neg hep]
      by_cases hj : ep.1 = j
      · rw [List.find?_cons_of_pos _ (by simpa using hj),
            List.find?_cons_of_pos _ (by simpa using hj)]
      · rw [List.find?_cons_of_neg _ (by simpa using hj),
            List.find?_cons_of_neg _ (by simpa using hj)]
        exact ih

lemma lookupPiece_setPiece_ne (l : List (Nat × Piece)) (i j : Nat) (p : Piece)
    (hne : j ≠ i) : lookupPiece (setPiece l i p) j = lookupPiece l j := by
  unfold lookupPiece
  rw [find?_setPiece_ne l i j p hne]

lemma color_of_square_map_snd (pos : Nat × Nat) (l : List (Nat × Piece)) :
    color_of_square pos (l.map Prod.snd) =
      (l.find? (fun ep => decide (ep.2.x = pos.1 ∧ ep.2.y = pos.2))).map
        (fun ep => ep.2.color) := by
  induction l with
  | nil => rfl
  | cons ep rest ih =>
    simp only [List.map_cons]
    unfold color_of_square
    by_cases hc : ep.2.x = pos.1 ∧ ep.2.y = pos.2
    · rw [if_pos hc, List.find?_cons_of_pos _ (by simpa using hc)]
      rfl
    · rw [if_neg hc, List.find?_cons_of_neg _ (by simpa using hc)]
      exact ih

lemma remove_taken_mem_iff (t : BoardState) (ep : Nat × Piece) :
    ep ∈ (remove_taken_pieces t).1.pieces ↔
      (ep ∈ t.pieces ∧ ep.1 ∉ t.taken) := by
  simp [remove_taken_pieces, List.mem_filter]

lemma remove_taken_exit_iff (t : BoardState) :
    (remove_taken_pieces t).2 = true ↔
      ∃ ep ∈ t.pieces, ep.1 ∈ t.taken ∧ ep.2.piece_type = PieceType.King := by
  simp [remove_taken_pieces, List.any_eq_true, List.mem_filter, and_assoc]

/-- C7: a legal move onto an occupied target marks the occupant (the first
entry on the target square) as `Taken` without removing it in the same
step — it is still looked up unchanged afterwards and the live list keeps
its length — and the subsequent capture sweep keeps exactly the unmarked
pieces and signals game over precisely when some marked piece is a King. -/
theorem c7_capture_mark_and_sweep (s : BoardState) (sq : Nat × Nat) (i j : Nat)
    (p q : Piece)
    (hnd : (s.pieces.map Prod.fst).Nodup)
    (hss : s.selectedSquare = some sq) (hsp : s.selectedPiece = some i)
    (hlp : lookupPiece s.pieces i = some p)
    (hv : p.is_move_valid (sq.1, sq.2) (s.pieces.map Prod.snd) = true)
    (hfind : s.pieces.find? (fun ep => decide (ep.2.x = sq.1 ∧ ep.2.y = sq.2)) =
      some (j, q)) :
    (move_piece true false s).taken = s.taken ++ [j] ∧
    lookupPiece (move_piece true false s).pieces j = some q ∧
    (move_piece true false s).pieces.length = s.pieces.length ∧
    (∀ ep : Nat × Piece,
      ep ∈ (remove_taken_pieces (move_piece true false s)).1.pieces ↔
        (ep ∈ (move_piece true false s).pieces ∧
         ep.1 ∉ (move_piece true false s).taken)) ∧
    ((remove_taken_pieces (move_piece true false s)).2 = true ↔
      ∃ ep ∈ (move_piece true false s).pieces,
        ep.1 ∈ (move_piece true false s).taken ∧
        ep.2.piece_type = PieceType.King) := by
  -- explicit form of the post-move state
  have hfind2 : s.pieces.find?
      (fun ep => decide (ep.2.x = sq.1) && decide (ep.2.y = sq.2)) = some (j, q) := by
    simpa using hfind
  have hmv : move_piece true false s =
      { s with
        pieces := setPiece s.pieces i { p with x := sq.1, y := sq.2 },
        selectedSquare := none,
        selectedPiece := none,
        turn := PlayerTurn.toggle s.turn,
        taken := s.taken ++ [j] } := by
    unfold move_piece
    simp [hss, hsp, hlp, hfind2, hv]
  -- the occupant is a different entity than the mover
  have hqpos := List.find?_some hfind
  simp only [decide_eq_true_eq] at hqpos
  have hqmem : (j, q) ∈ s.pieces := List.mem_of_find?_eq_some hfind
  have hcolor := is_move_valid_true_color_ne hv
  rw [color_of_square_map_snd (sq.1, sq.2) s.pieces] at hcolor
  simp only at hcolor
  rw [hfind] at hcolor
  have hpc : p.color ≠ q.color := fun h => hcolor (by rw [h]; rfl)
  have hne : j ≠ i := by
    intro hji
    obtain ⟨ep₀, hf₀, hsnd₀⟩ := Option.map_eq_some'.mp hlp
    have hkey₀ := List.find?_some hf₀
    simp only [decide_eq_true_eq] at hkey₀
    have h1 : (i, p) ∈ s.pieces := by
      have : ep₀ = (i, p) := by
        cases ep₀
        simp only [Prod.mk.injEq]
        exact ⟨hkey₀, hsnd₀⟩
      rw [← this]
      exact List.mem_of_find?_eq_some hf₀
    have h2 : (i, q) ∈ s.pieces := by
      rw [← hji]
      exact hqmem
    exact hpc (congrArg Piece.color (keys_nodup_snd_eq hnd h1 h2))
  refine ⟨by rw [hmv], ?_, by rw [hmv]; simp [setPiece], fun ep => remove_taken_mem_iff _ ep,
    remove_taken_exit_iff _⟩
  rw [hmv]
  show lookupPiece (setPiece s.pieces i { p with x := sq.1, y := sq.2 }) j = some q
  rw [lookupPiece_setPiece_ne s.pieces i j _ hne]
  unfold lookupPiece
  rw [find?_key_eq hnd hqmem]
  rfl

/-- C7 witness: a White rook at (0,0) captures the Black pawn at (0,3); the
pawn (entity 1) is marked, still present after the move step, and the sweep
does not end the game since it is not a King. -/
theorem c7_witness :
    (move_piece true false
      (BoardState.mk
        [(0, Piece.mk PieceColor.White PieceType.Rook 0 0),
         (1, Piece.mk PieceColor.Black PieceType.Pawn 0 3)]
        (some (0, 3)) (some 0) PieceColor.White [])).taken = [1] ∧
    lookupPiece (move_piece true false
      (BoardState.mk
        [(0, Piece.mk PieceColor.White PieceType.Rook 0 0),
         (1, Piece.mk PieceColor.Black PieceType.Pawn 0 3)]
        (some (0, 3)) (some 0) PieceColor.White [])).pieces 1 =
      some (Piece.mk PieceColor.Black PieceType.Pawn 0 3) := by
  have h := c7_capture_mark_and_sweep
    (BoardState.mk
      [(0, Piece.mk PieceColor.White PieceType.Rook 0 0),
       (1, Piece.mk PieceColor.Black PieceType.Pawn 0 3)]
      (some (0, 3)) (some 0) PieceColor.White [])
    (0, 3) 0 1 (Piece.mk PieceColor.White PieceType.Rook 0 0)
    (Piece.mk PieceColor.Black PieceType.Pawn 0 3)
    (by decide) rfl rfl (by decide) (by decide) (by decide)
  exact ⟨h.1, h.2.1⟩

lemma i8chk_eq_some {z : Int} (h1 : -128 ≤ z) (h2 : z ≤ 127) :
    i8chk z = some z := by
  unfold i8chk
  rw [if_pos ⟨h1, h2⟩]

lemma absChkI_eq_some {z : Int} (h : z ≠ -128) :
    absChkI z = some (z.natAbs : Int) := by
  unfold absChkI
  rw [if_neg h]

lemma fromPosChk_eq_some (p q : Nat × Nat) (h1 : p.1 ≤ 7) (h2 : p.2 ≤ 7)
    (h3 : q.1 ≤ 7) (h4 : q.2 ≤ 7) :
    fromPosChk p q = some (Manhatan.fromPos p q) := by
  unfold fromPosChk Manhatan.fromPos
  rw [toI8_of_le h1, toI8_of_le h3, toI8_of_le h2, toI8_of_le h4]
  rw [i8chk_eq_some (by omega) (by omega)]
  simp only [Option.bind_eq_bind, Option.some_bind]
  rw [i8chk_eq_some (by omega) (by omega)]
  simp only [Option.bind_eq_bind, Option.some_bind]
  rfl

lemma absChk_eq_some (d : Manhatan) (h1 : d.fst ≠ -128) (h2 : d.snd ≠ -128) :
    d.absChk = some d.abs := by
  unfold Manhatan.absChk Manhatan.abs
  rw [absChkI_eq_some h1]
  simp only [Option.bind_eq_bind, Option.some_bind]
  rw [absChkI_eq_some h2]
  simp only [Option.bind_eq_bind, Option.some_bind]
  rfl

lemma straightChk_eq_some (d : Manhatan) (h1 : d.fst ≠ -128) (h2 : d.snd ≠ -128) :
    d.straightChk = some d.straight := by
  unfold Manhatan.straightChk Manhatan.straight
  rw [absChk_eq_some d h1 h2]
  rfl

lemma dignonalChk_eq_some (d : Manhatan) (h1 : d.fst ≠ -128) (h2 : d.snd ≠ -128) :
    d.dignonalChk = some d.dignonal := by
  unfold Manhatan.dignonalChk Manhatan.dignonal
  rw [absChk_eq_some d h1 h2]
  rfl

lemma sign_cases (z : Int) : z.sign = -1 ∨ z.sign = 0 ∨ z.sign = 1 := by
  cases z with
  | ofNat n =>
    cases n with
    | zero => exact Or.inr (Or.inl rfl)
    | succ m => exact Or.inr (Or.inr rfl)
  | negSucc n => exact Or.inl rfl

lemma diag_fold_wrap (pieces : List Piece) (x1 y1 : Nat) (xd yd : Int)
    (hx1 : x1 ≤ 7) (hy1 : y1 ≤ 7) :
    ∀ l : List Nat, (∀ k ∈ l, k + 1 ≤ 7) → ∀ acc : Bool,
      l.foldlM (diagStepChk wrapCastU8 pieces x1 y1 xd yd) acc =
        some (acc && !(l.any (diagOcc pieces x1 y1 xd yd))) := by
  intro l
  induction l with
  | nil =>
    intro _ acc
    simp
  | cons k rest ih =>
    intro hb acc
    have hk : k + 1 ≤ 7 := hb k (by simp)
    have hrest : ∀ m ∈ rest, m + 1 ≤ 7 := fun m hm => hb m (by simp [hm])
    have hsx := sign_cases xd
    have hsy := sign_cases yd
    have hmx : i8chk (Int.sign xd * ((k : Int) + 1)) =
        some (Int.sign xd * ((k : Int) + 1)) := by
      rcases hsx with h | h | h <;> rw [h] <;> exact i8chk_eq_some (by omega) (by omega)
    have hmy : i8chk (Int.sign yd * ((k : Int) + 1)) =
        some (Int.sign yd * ((k : Int) + 1)) := by
      rcases hsy with h | h | h <;> rw [h] <;> exact i8chk_eq_some (by omega) (by omega)
    have hpx : i8chk (toI8 x1 + Int.sign xd * ((k : Int) + 1)) =
        some (toI8 x1 + Int.sign xd * ((k : Int) + 1)) := by
      rw [toI8_of_le hx1]
      rcases hsx with h | h | h <;> rw [h] <;> exact i8chk_eq_some (by omega) (by omega)
    have hpy : i8chk (toI8 y1 + Int.sign yd * ((k : Int) + 1)) =
        some (toI8 y1 + Int.sign yd * ((k : Int) + 1)) := by
      rw [toI8_of_le hy1]
      rcases hsy with h | h | h <;> rw [h] <;> exact i8chk_eq_some (by omega) (by omega)
    rw [List.foldlM_cons]
    cases acc with
    | false =>
      have hstep : diagStepChk wrapCastU8 pieces x1 y1 xd yd false k = some false := rfl
      rw [hstep]
      simp only [Option.bind_eq_bind, Option.some_bind]
      rw [ih hrest false]
      simp
    | true =>
      have hstep : diagStepChk wrapCastU8 pieces x1 y1 xd yd true k =
          some (!(diagOcc pieces x1 y1 xd yd k)) := by
        unfold diagStepChk
        rw [if_neg (by simp)]
        dsimp only
        rw [hmx]
        simp only [Option.bind_eq_bind, Option.some_bind]
        rw [hpx]
        simp only [Option.bind_eq_bind, Option.some_bind]
        unfold wrapCastU8
        simp only [Option.bind_eq_bind, Option.some_bind]
        rw [hmy]
        simp only [Option.bind_eq_bind, Option.some_bind]
        rw [hpy]
        simp only [Option.bind_eq_bind, Option.some_bind]
        rfl
      rw [hstep]
      simp only [Option.bind_eq_bind, Option.some_bind]
      rw [ih hrest]
      cases hocc : diagOcc pieces x1 y1 xd yd k <;> simp [hocc]

lemma is_path_empty_chk_wrap (p1 p2 : Nat × Nat) (pieces : List Piece)
    (h1 : p1.1 ≤ 7) (h2 : p1.2 ≤ 7) (h3 : p2.1 ≤ 7) (h4 : p2.2 ≤ 7) :
    is_path_empty_chk wrapCastU8 p1 p2 pieces = some (is_path_empty p1 p2 pieces) := by
  unfold is_path_empty_chk is_path_empty
  cases hcol : colBlockedB p1 p2 pieces with
  | true => simp [hcol]
  | false =>
    cases hrow : rowBlockedB p1 p2 pieces with
    | true => simp [hcol, hrow]
    | false =>
      simp only [Bool.false_eq_true, if_false]
      rw [toI8_of_le h1, toI8_of_le h3, toI8_of_le h2, toI8_of_le h4]
      rw [i8chk_eq_some (z := (p1.1 : Int) - p2.1) (by omega) (by omega)]
      simp only [Option.bind_eq_bind, Option.some_bind]
      rw [i8chk_eq_some (z := (p1.2 : Int) - p2.2) (by omega) (by omega)]
      simp only [Option.bind_eq_bind, Option.some_bind]
      rw [absChkI_eq_some (by omega)]
      simp only [Option.bind_eq_bind, Option.some_bind]
      rw [absChkI_eq_some (by omega)]
      simp only [Option.bind_eq_bind, Option.some_bind]
      by_cases hg : ((p1.1 : Int) - p2.1).natAbs = ((p1.2 : Int) - p2.2).natAbs
      · rw [if_pos (by exact_mod_cast hg), if_pos hg]
        rw [Int.toNat_natCast]
        rw [diag_fold_wrap pieces p1.1 p1.2 _ _ h1 h2 _
          (fun m hm => by
            have hmb := List.mem_range.mp hm
            have hna : ((p1.1 : Int) - p2.1).natAbs ≤ 7 := by omega
            omega) true]
        simp
      · rw [if_neg (by exact_mod_cast hg), if_neg hg]
        rfl

lemma decide_natCast_natAbs_eq_one (z : Int) :
    decide ((z.natAbs : Int) = 1) = decide (z.natAbs = 1) := by
  rw [decide_eq_decide]
  exact Nat.cast_eq_one

lemma pawnDiagChk_eq_some (d : Manhatan) (sc : Option PieceColor)
    (h : d.snd ≠ -128) :
    pawnDiagChk d sc =
      some (decide (d.fst = 1) && decide (d.snd.natAbs = 1) && sc.isSome) := by
  unfold pawnDiagChk
  by_cases hf : d.fst = 1
  · rw [if_pos (by simpa using hf)]
    rw [absChkI_eq_some h]
    simp only [Option.bind_eq_bind, Option.some_bind]
    rw [decide_natCast_natAbs_eq_one]
    simp [hf]
  · rw [if_neg (by simpa using hf)]
    simp [hf]

lemma is_move_valid_chk_wrap (self : Piece) (t : Nat × Nat) (pieces : List Piece)
    (h1 : self.x ≤ 7) (h2 : self.y ≤ 7) (h3 : t.1 ≤ 7) (h4 : t.2 ≤ 7) :
    Piece.is_move_valid_chk wrapCastU8 self t pieces =
      some (self.is_move_valid t pieces) := by
  obtain ⟨c, k, x, y⟩ := self
  dsimp only at h1 h2 ⊢
  unfold Piece.is_move_valid_chk Piece.is_move_valid
  by_cases hc : some c = color_of_square t pieces
  · rw [if_pos hc, if_pos hc]
  · rw [if_neg hc, if_neg hc]
    rw [fromPosChk_eq_some (x, y) t h1 h2 h3 h4]
    simp only [Option.bind_eq_bind, Option.some_bind]
    have hfst : (Manhatan.fromPos (x, y) t).fst ≠ -128 := by
      unfold Manhatan.fromPos
      dsimp only
      rw [toI8_of_le h1, toI8_of_le h3]
      omega
    have hsnd : (Manhatan.fromPos (x, y) t).snd ≠ -128 := by
      unfold Manhatan.fromPos
      dsimp only
      rw [toI8_of_le h2, toI8_of_le h4]
      omega
    cases k with
    | King =>
      rw [absChk_eq_some _ hfst hsnd]
      rfl
    | Queen =>
      simp only [is_path_empty_chk_wrap (x, y) t pieces h1 h2 h3 h4,
        dignonalChk_eq_some _ hfst hsnd, straightChk_eq_some _ hfst hsnd]
      cases is_path_empty (x, y) t pieces <;>
        cases (Manhatan.fromPos (x, y) t).dignonal <;>
          cases (Manhatan.fromPos (x, y) t).straight <;> rfl
    | Bishop =>
      simp only [is_path_empty_chk_wrap (x, y) t pieces h1 h2 h3 h4,
        dignonalChk_eq_some _ hfst hsnd]
      cases is_path_empty (x, y) t pieces <;>
        cases (Manhatan.fromPos (x, y) t).dignonal <;> rfl
    | Knight =>
      rw [absChk_eq_some _ hfst hsnd]
      rfl
    | Rook =>
      simp only [is_path_empty_chk_wrap (x, y) t pieces h1 h2 h3 h4,
        straightChk_eq_some _ hfst hsnd]
      cases is_path_empty (x, y) t pieces <;>
        cases (Manhatan.fromPos (x, y) t).straight <;> rfl
    | Pawn =>
      cases c with
      | White =>
        dsimp only
        rw [if_pos rfl, if_pos rfl]
        rw [fromPosChk_eq_some t (x, y) h3 h4 h1 h2]
        simp only [Option.bind_eq_bind, Option.some_bind]
        have hsnd2 : (Manhatan.fromPos t (x, y)).snd ≠ -128 := by
          unfold Manhatan.fromPos
          dsimp only
          rw [toI8_of_le h4, toI8_of_le h2]
          omega
        simp only [is_path_empty_chk_wrap (x, y) t pieces h1 h2 h3 h4,
          pawnDiagChk_eq_some _ _ hsnd2]
        cases hsc : color_of_square t pieces with
        | some sc =>
          by_cases hx1 : x = 1 <;>
            by_cases hd2 : Manhatan.fromPos t (x, y) = Manhatan.mk 2 0 <;>
              cases hpe : is_path_empty (x, y) t pieces <;>
                simp [hsc, hx1, hd2, hpe]
        | none =>
          by_cases hd1 : Manhatan.fromPos t (x, y) = Manhatan.mk 1 0 <;>
            by_cases hx1 : x = 1 <;>
              by_cases hd2 : Manhatan.fromPos t (x, y) = Manhatan.mk 2 0 <;>
                cases hpe : is_path_empty (x, y) t pieces <;>
                  (simp [hsc, hd1, hx1, hd2, hpe] <;> (repeat' split) <;> simp_all)
      | Black =>
        dsimp only
        rw [if_neg (by decide), if_neg (by decide)]
        simp only [Option.bind_eq_bind, Option.some_bind, pure]
        simp only [is_path_empty_chk_wrap (x, y) t pieces h1 h2 h3 h4,
          pawnDiagChk_eq_some _ _ hsnd]
        cases hsc : color_of_square t pieces with
        | some sc =>
          by_cases hx6 : x = 6 <;>
            by_cases hd2 : Manhatan.fromPos (x, y) t = Manhatan.mk 2 0 <;>
              cases hpe : is_path_empty (x, y) t pieces <;>
                simp [hsc, hx6, hd2, hpe]
        | none =>
          by_cases hd1 : Manhatan.fromPos (x, y) t = Manhatan.mk 1 0 <;>
            by_cases hx6 : x = 6 <;>
              by_cases hd2 : Manhatan.fromPos (x, y) t = Manhatan.mk 2 0 <;>
                cases hpe : is_path_empty (x, y) t pieces <;>
                  (simp [hsc, hd1, hx6, hd2, hpe] <;> (repeat' split) <;> simp_all)

/-- C9 counterexample: the claim's parenthetical asserts that the diagonal
path walk's `as u8` cast inputs stay within range; but already for the
bishop move (0,0) → (2,2) on an empty board the walk (stepping by the
inverted `signum(x1 - x2)`) feeds the negative value -1 to `as u8`, so the
strictly-range-checked evaluation aborts (`none`) while the real function
wraps and returns a boolean. -/
theorem c9_counterexample :
    Piece.is_move_valid_chk strictCastU8
      (Piece.mk PieceColor.White PieceType.Bishop 0 0) (2, 2) [] = none ∧
    (Piece.mk PieceColor.White PieceType.Bishop 0 0).is_move_valid (2, 2) [] = true := by
  decide

/-- C9 (amended): on the 8×8 domain, `is_move_valid` is a total pure
function into booleans: the evaluation in which every `i8` operation is
guarded by its range (arithmetic overflow and `abs(-128)`, the debug-build
panics) and the diagonal walk's `as u8` casts wrap — as Rust's `as` does,
without failing — completes and returns exactly the value of the exact
model, for every piece, target and piece list with coordinates in [0,7]. -/
theorem c9_total_on_board (self : Piece) (t : Nat × Nat) (pieces : List Piece)
    (h1 : self.x ≤ 7) (h2 : self.y ≤ 7) (h3 : t.1 ≤ 7) (h4 : t.2 ≤ 7)
    (h5 : ∀ p ∈ pieces, p.x ≤ 7 ∧ p.y ≤ 7) :
    Piece.is_move_valid_chk wrapCastU8 self t pieces =
      some (self.is_move_valid t pieces) :=
  is_move_valid_chk_wrap self t pieces h1 h2 h3 h4

/-- C9 witness: the checked evaluation of the bishop move (0,0) → (2,2)
over a board with a pawn at (1,1) completes with the exact model's value. -/
theorem c9_witness :
    Piece.is_move_valid_chk wrapCastU8
      (Piece.mk PieceColor.White PieceType.Bishop 0 0) (2, 2)
      [Piece.mk PieceColor.Black PieceType.Pawn 1 1] =
      some ((Piece.mk PieceColor.White PieceType.Bishop 0 0).is_move_valid (2, 2)
        [Piece.mk PieceColor.Black PieceType.Pawn 1 1]) :=
  c9_total_on_board (Piece.mk PieceColor.White PieceType.Bishop 0 0) (2, 2)
    [Piece.mk PieceColor.Black PieceType.Pawn 1 1]
    (by decide) (by decide) (by decide) (by decide) (by decide)

end BevyChess
